import Mathlib

/-!
Verification of the spatial evolutionary game engine of this repository:
the iterated Prisoner's Dilemma strategy catalog (`strategies.py`), the
match engine (`game.py`), the toroidal grid, Moore neighborhood, scoring
and imitate-the-best update (`spatial.py`), the convergence loop and
critical-point finder (`phase-transition/explore.py`), and the invasion
run (`invasion/invade.py`).

Python machine integers are unbounded, so scores are embedded as `ℚ`
(the explore/invade score grids are floats holding sums of small integer
payoffs, exactly representable; `spatial.py` scores are ints).  Actions
are `Bool` exactly as in the source (`COOPERATE = True`, `DEFECT = False`).

The Python code draws randomness from the module-global `random`
generator.  That global generator is modelled as a pure stream
`rs : Nat → Nat` together with a consumption index `k : Nat`: each call
into the `random` module consumes one element of the stream.  The
concrete decoding of a drawn `Nat` into the result of `random.random() < 0.1`
or `random.choice(...)` is abstract but fixed (`randFloatLt`, `randCoin`,
index by `% length`); the theorems below do not depend on the decoding,
only on the dependence structure (which call consumes which draw).
`random.seed(s)` is modelled as replacing the stream by `mers s` for a
seeding function `mers` that is universally quantified in the theorems.
-/

/-- The closed catalog of strategy classes from `strategies.py`.
A grid cell or player is determined by its class: fresh instances carry
no distinguishing data beyond per-match memory, which is modelled
separately by `SState`. -/
inductive SName where
  | tft | pavlov | gtft | tf2t | softM | grudger
  | detective | hardM | stft | alwaysC | rand | alwaysD
  deriving DecidableEq, Repr

/-- Enumeration of the catalog, in the order of `ALL_STRATEGIES`. -/
def allSNames : List SName :=
  [.tft, .pavlov, .gtft, .tf2t, .softM, .grudger,
   .detective, .hardM, .stft, .alwaysC, .rand, .alwaysD]

/-- Per-match mutable memory of a strategy instance: `Grudger._betrayed`
and `Detective._exploit`.  All other strategies are stateless. -/
structure SState where
  betrayed : Bool
  exploit : Option Bool
  deriving DecidableEq, Repr

/-- The state set by `__init__` and restored by `reset()`. -/
def SState.init : SState := ⟨false, none⟩

/-- Decoding of a global-generator draw as `random.random() < 0.1`
(GenerousTitForTat's forgiveness roll). -/
def randFloatLt (v : Nat) : Bool := v % 10 == 0

/-- Decoding of a global-generator draw as `random.choice([True, False])`
(the Random strategy's coin). -/
def randCoin (v : Nat) : Bool := v % 2 == 0

/-- `Detective._opening`: the fixed probe sequence C, D, C, C. -/
def detOpening : List Bool := [true, false, true, true]

/-- `choose(my_history, their_history)` for every strategy in the catalog,
with the instance state threaded explicitly and the global random stream
`rs` with consumption index `k`.  Returns (move, new state, new index).
Each branch transcribes the corresponding `choose` in `strategies.py`. -/
def choose (n : SName) (st : SState) (my their : List Bool)
    (rs : Nat → Nat) (k : Nat) : Bool × SState × Nat :=
  match n with
  | .alwaysC => (true, st, k)
  | .alwaysD => (false, st, k)
  | .tft => (if their.isEmpty then true else their.getLastD true, st, k)
  | .stft => (if their.isEmpty then false else their.getLastD true, st, k)
  | .tf2t =>
      (if their.length < 2 then true
       else !(their.getLastD true == false && their.dropLast.getLastD true == false),
       st, k)
  | .gtft =>
      if their.isEmpty then (true, st, k)
      else if their.getLastD true then (true, st, k)
      else (randFloatLt (rs k), st, k + 1)
  | .pavlov =>
      (if my.isEmpty then true else my.getLastD true == their.getLastD true, st, k)
  | .grudger =>
      if st.betrayed then (false, st, k)
      else if !their.isEmpty && !their.getLastD true then
        (false, { st with betrayed := true }, k)
      else (true, st, k)
  | .detective =>
      if my.length < 4 then (detOpening.getD my.length true, st, k)
      else
        match st.exploit with
        | some e => (if e then false else their.getLastD true, st, k)
        | none =>
            let e := (their.take 4).all (fun b => b)
            (if e then false else their.getLastD true, { st with exploit := some e }, k)
  | .hardM =>
      (if their.isEmpty then false
       else decide (their.count true > their.length - their.count true), st, k)
  | .softM =>
      (if their.isEmpty then true
       else decide (their.count true ≥ their.length - their.count true), st, k)
  | .rand => (randCoin (rs k), st, k + 1)

/-- The standard payoff matrix `PAYOFFS` of `game.py`
(R = 3, S = 0, T = 5, P = 1). -/
def PAYOFFS (a b : Bool) : ℚ :=
  match a, b with
  | true, true => 3
  | true, false => 0
  | false, true => 5
  | false, false => 1

/-- The payoff matrix built by `run_simulation` in `explore.py`, with the
temptation entry variable. -/
def tPayoffs (t : ℚ) (a b : Bool) : ℚ :=
  match a, b with
  | true, true => 3
  | true, false => 0
  | false, true => t
  | false, false => 1

/-- The round loop shared by `play_match` (`game.py`) and the inline match
loops of `explore.py`/`invade.py`: each round both sides choose given the
history so far (a first, then b, which fixes the order in which random
draws are consumed), payoffs are accumulated, histories grow by one. -/
def matchLoop (a b : SName) (pay : Bool → Bool → ℚ) (rs : Nat → Nat) :
    Nat → SState → SState → List Bool → List Bool → ℚ → ℚ → Nat → ℚ × ℚ × Nat
  | 0, _, _, _, _, sA, sB, k => (sA, sB, k)
  | r + 1, stA, stB, hA, hB, sA, sB, k =>
      let ra := choose a stA hA hB rs k
      let rb := choose b stB hB hA rs ra.2.2
      matchLoop a b pay rs r ra.2.1 rb.2.1 (hA ++ [ra.1]) (hB ++ [rb.1])
        (sA + pay ra.1 rb.1) (sB + pay rb.1 ra.1) rb.2.2

/-- `play_match(a, b, rounds)` of `game.py`, restricted to the score part
of `MatchResult` (the name and cooperation-fraction fields are derived
data not used by the engine).  Both strategies are reset before play. -/
def playMatch (a b : SName) (rounds : Nat) (pay : Bool → Bool → ℚ)
    (rs : Nat → Nat) (k : Nat) : ℚ × ℚ × Nat :=
  matchLoop a b pay rs rounds SState.init SState.init [] [] 0 0 k

/-- The toroidal grid: a `width × height` array of strategy instances.
Since instances in the grid always carry fresh (`reset`) memory, a cell is
determined by its strategy class; the array is embedded as a total
function on (row, column) whose values at in-range coordinates are the
grid contents. -/
structure Grid where
  width : Nat
  height : Nat
  cells : Nat → Nat → SName

/-- `SpatialGrid.at(x, y)`: lookup with toroidal wrapping
(`grid[y % height][x % width]`). -/
def Grid.at (g : Grid) (x y : Nat) : SName :=
  g.cells (y % g.height) (x % g.width)

/-- Python `%` on an int with a positive modulus, landing in `[0, m)`. -/
def wrap (a : Int) (m : Nat) : Nat := (a.emod m).toNat

/-- `SpatialGrid.neighbors(x, y)` (and the identical inline loops of
`explore.py`/`invade.py`): the 8 Moore neighbors, `dy` outer and `dx`
inner, skipping `(0, 0)`, each coordinate wrapped modulo the dimension. -/
def neighbors (w h : Nat) (x y : Nat) : List (Nat × Nat) :=
  ([-1, 0, 1] : List Int).flatMap fun dy =>
    ([-1, 0, 1] : List Int).filterMap fun dx =>
      if dx = 0 ∧ dy = 0 then none
      else some (wrap (x + dx) w, wrap (y + dy) h)

/-- The grid contents read off row-major (`for y: for x: at(x, y)`), the
traversal used by `census` and `count_cooperators`. -/
def cellList (g : Grid) : List SName :=
  (List.range g.height).flatMap fun y =>
    (List.range g.width).map fun x => g.at x y

/-- `SpatialGrid.census()` / `census(grid)`: population count per strategy
name (a name absent from the Python dict has count 0). -/
def census (g : Grid) (n : SName) : Nat := (cellList g).count n

/-- Value equality of two censuses, as Python dict equality compares the
results of `census` (keys with count 0 never occur in the dicts). -/
def censusEq (c1 c2 : SName → Nat) : Bool :=
  allSNames.all fun n => c1 n == c2 n

/-- Left-to-right traversal of an index list building a row of values
while threading the random-consumption index, as the Python `for x in
range(w)` loops do. -/
def threadMap (f : Nat → Nat → α × Nat) (l : List Nat) (k : Nat) :
    List α × Nat :=
  l.foldl (fun acc i => let r := f i acc.2; (acc.1 ++ [r.1], r.2)) ([], k)

/-- Row-major construction of a `height × width` list-of-lists (the shape
of the Python `scores`/`moves` buffers), threading the random index
through cells in the order the Python loops visit them. -/
def buildGrid2 (w h : Nat) (f : Nat → Nat → Nat → α × Nat) (k : Nat) :
    List (List α) × Nat :=
  (List.range h).foldl
    (fun acc y =>
      let r := threadMap (fun x => f x y) (List.range w) acc.2
      (acc.1 ++ [r.1], r.2))
    ([], k)

/-- `buffer[y][x]` on a list-of-lists, with a default for the (never
exercised) out-of-range case. -/
def index2 (ll : List (List α)) (y x : Nat) (d : α) : α :=
  (ll.getD y []).getD x d

/-- A list-of-lists whose `(y, x)` entry is `v x y`; the shape every
Python buffer takes when no randomness is consumed while filling it. -/
def pureGrid2 (w h : Nat) (v : Nat → Nat → α) : List (List α) :=
  (List.range h).map fun y => (List.range w).map fun x => v x y

/-- One cell's total score: the per-neighbor loop body shared by
`SpatialGrid.compute_scores` (general branch) and the `compute_scores`
of `explore.py`/`invade.py` — a fresh (deep-copied, reset) match against
each of the 8 neighbors, accumulating this cell's own score. -/
def cellScore (g : Grid) (rounds : Nat) (pay : Bool → Bool → ℚ)
    (rs : Nat → Nat) (x y : Nat) (k : Nat) : ℚ × Nat :=
  (neighbors g.width g.height x y).foldl
    (fun acc c =>
      let r := playMatch (g.at x y) (g.at c.1 c.2) rounds pay rs acc.2
      (acc.1 + r.1, r.2.2))
    (0, k)

/-- `compute_scores(grid, ...)` of `explore.py`/`invade.py`, and the
general (`rounds ≠ 1`) branch of `SpatialGrid.compute_scores`. -/
def computeScoresPairwise (g : Grid) (rounds : Nat) (pay : Bool → Bool → ℚ)
    (rs : Nat → Nat) (k : Nat) : List (List ℚ) × Nat :=
  buildGrid2 g.width g.height (cellScore g rounds pay rs) k

/-- The move pre-computation of the `rounds_per_match == 1` fast path of
`SpatialGrid.compute_scores`: each cell's one-shot move
(`choose([], [])` on the grid instance, whose memory is in its reset
state), row-major. -/
def movesGrid (g : Grid) (rs : Nat → Nat) (k : Nat) :
    List (List Bool) × Nat :=
  buildGrid2 g.width g.height
    (fun x y k0 => ((choose (g.at x y) SState.init [] [] rs k0).1,
      (choose (g.at x y) SState.init [] [] rs k0).2.2)) k

/-- The `rounds_per_match == 1` fast path of `SpatialGrid.compute_scores`:
score every neighbor pairing from the pre-computed move table using the
fixed `PAYOFFS`. -/
def computeScoresFast (g : Grid) (rs : Nat → Nat) (k : Nat) :
    List (List ℚ) × Nat :=
  let mv := movesGrid g rs k
  let m := fun y x => index2 mv.1 y x true
  buildGrid2 g.width g.height
    (fun x y k0 =>
      ((neighbors g.width g.height x y).foldl
        (fun s c => s + PAYOFFS (m y x) (m c.2 c.1)) 0, k0))
    mv.2

/-- `SpatialGrid.compute_scores(rounds_per_match)` with its fast-path
branch on `rounds_per_match == 1`. -/
def computeScores (g : Grid) (rounds : Nat) (rs : Nat → Nat) (k : Nat) :
    List (List ℚ) × Nat :=
  if rounds = 1 then computeScoresFast g rs k
  else computeScoresPairwise g rounds PAYOFFS rs k

/-- The update-phase scan of `SpatialGrid.step`: running best
`(best_score, best_x, best_y)` initialized to the cell itself, replaced
by a neighbor only on a strictly greater score. -/
def bestNeighbor (scores : Nat → Nat → ℚ) (w h x y : Nat) : ℚ × Nat × Nat :=
  (neighbors w h x y).foldl
    (fun b c => if scores c.2 c.1 > b.1 then (scores c.2 c.1, c.1, c.2) else b)
    (scores y x, x, y)

/-- The new grid written by the update phase of `SpatialGrid.step`: every
cell adopts a fresh instance of the strategy at its best-scoring
neighborhood coordinate. -/
def stepNewGrid (g : Grid) (scores : Nat → Nat → ℚ) : Grid :=
  { g with cells := fun y x =>
      (let b := bestNeighbor scores g.width g.height x y
       g.at b.2.1 b.2.2) }

/-- `SpatialGrid.step(rounds_per_match)`: score phase then update phase,
producing the next generation's grid (the Python method also appends a
census snapshot to `stats_history`, derived data recomputable from the
grid). -/
def Grid.step (g : Grid) (rounds : Nat) (rs : Nat → Nat) (k : Nat) :
    Grid × Nat :=
  let sc := computeScores g rounds rs k
  (stepNewGrid g (fun y x => index2 sc.1 y x 0), sc.2)

/-- `g` generations of `SpatialGrid.step`, threading the random index. -/
def stepIter (g : Grid) (rounds : Nat) (rs : Nat → Nat) :
    Nat → Nat → Grid × Nat
  | 0, k => (g, k)
  | n + 1, k =>
      let r := stepIter g rounds rs n k
      r.1.step rounds rs r.2

/-- The per-cell body of `evolve_grid` (`explore.py`) / `evolve`
(`invade.py`): running best `(best_score, best_cls)` initialized to the
cell itself, a neighbor's class adopted only on a strictly greater
score. -/
def evolveCell (g : Grid) (scores : Nat → Nat → ℚ) (x y : Nat) : SName :=
  ((neighbors g.width g.height x y).foldl
    (fun b c => if scores c.2 c.1 > b.1 then (scores c.2 c.1, g.at c.1 c.2) else b)
    (scores y x, g.at x y)).2

/-- `evolve_grid(grid, scores, ...)` of `explore.py` (identically
`evolve` of `invade.py`): each cell adopts a fresh instance of its
best-scoring neighbor's class, written into a new grid. -/
def evolveGrid (g : Grid) (scores : Nat → Nat → ℚ) : Grid :=
  { g with cells := fun y x => evolveCell g scores x y }

/-- `make_grid` of `explore.py`: optionally reseed the global generator,
then fill the grid uniformly at random from `strategy_classes`
(`random.choice` consumes one draw per cell, row-major).  Returns the
grid and the post-construction global generator (stream, index). -/
def makeGridE (mers : Nat → Nat → Nat) (classes : List SName) (w h : Nat)
    (seed : Option Nat) (rs : Nat → Nat) (k : Nat) :
    Grid × (Nat → Nat) × Nat :=
  let rsk : (Nat → Nat) × Nat :=
    match seed with
    | some s => (mers s, 0)
    | none => (rs, k)
  let b := buildGrid2 w h
    (fun _ _ k0 => (classes.getD (rsk.1 k0 % classes.length) SName.alwaysD, k0 + 1))
    rsk.2
  (⟨w, h, fun y x => index2 b.1 y x SName.alwaysD⟩, rsk.1, b.2)

/-- `NICE_STRATEGIES` of `explore.py`. -/
def NICE : List SName := [.tft, .gtft, .tf2t, .pavlov, .alwaysC, .softM]

/-- `cooperation_fraction(counts)` of `explore.py`. -/
def cooperationFraction (c : SName → Nat) : ℚ :=
  let total := (allSNames.map c).sum
  if total = 0 then 0 else ((NICE.map c).sum : ℚ) / (total : ℚ)

/-- The generation loop of `run_simulation` (`explore.py`): score, evolve,
then compare the census by value with the previous generation's; three
consecutive equal censuses break the loop.  Returns the final grid, the
global generator index, and the number of loop iterations executed
(instrumentation making the early stop observable; the Python loop
variable `gen` reaches one less than this count). -/
def simLoop (pay : Bool → Bool → ℚ) (rs : Nat → Nat) (rounds : Nat) :
    Nat → Grid → Option (SName → Nat) → Nat → Nat → Nat → Grid × Nat × Nat
  | 0, g, _, _, k, iters => (g, k, iters)
  | left + 1, g, prev, stable, k, iters =>
      let sc := computeScoresPairwise g rounds pay rs k
      let g1 := evolveGrid g (fun y x => index2 sc.1 y x 0)
      let cur := census g1
      match prev with
      | some p =>
          if censusEq cur p then
            if stable + 1 ≥ 3 then (g1, sc.2, iters + 1)
            else simLoop pay rs rounds left g1 (some cur) (stable + 1) sc.2 (iters + 1)
          else simLoop pay rs rounds left g1 (some cur) 0 sc.2 (iters + 1)
      | none => simLoop pay rs rounds left g1 (some cur) 0 sc.2 (iters + 1)

/-- `run_simulation(temptation, strategy_classes, ...)` of `explore.py`:
build the payoff matrix with the given temptation, make the seeded grid,
iterate to the generation ceiling or convergence, and return the final
cooperation fraction and census — plus the executed iteration count from
`simLoop`. -/
def runSimulationE (mers : Nat → Nat → Nat) (temptation : ℚ)
    (classes : List SName) (w h rounds gens : Nat) (seed : Option Nat)
    (rs : Nat → Nat) (k : Nat) : ℚ × (SName → Nat) × Nat :=
  let m := makeGridE mers classes w h seed rs k
  let r := simLoop (tPayoffs temptation) m.2.1 rounds gens m.1 none 0 m.2.2 0
  (cooperationFraction (census r.1), census r.1, r.2.2)

/-- `find_critical_point(data)` of `explore.py`: scan adjacent sample
pairs for the metric falling from `≥ 0.5` to `< 0.5` and linearly
interpolate the parameter where it equals 0.5; `none` when no such pair
exists. -/
def findCriticalPoint : List (ℚ × ℚ) → Option ℚ
  | (t1, c1) :: (t2, c2) :: rest =>
      if c1 ≥ 1/2 ∧ c2 < 1/2 then
        if c1 = c2 then some t1
        else some (t1 + (1/2 - c1) * (t2 - t1) / (c2 - c1))
      else findCriticalPoint ((t2, c2) :: rest)
  | _ => none

/-- L1 (diamond) distance of `(x, y)` from the grid center
`(width // 2, height // 2)`, as computed in `invade.py`'s `make_grid`. -/
def invDist (w h x y : Nat) : Nat :=
  ((x : Int) - ((w / 2 : Nat) : Int)).natAbs + ((y : Int) - ((h / 2 : Nat) : Int)).natAbs

/-- `make_grid` of `invade.py`: the invader class on every cell within L1
distance ≤ radius of the center, `AlwaysDefect` elsewhere; also returns
the number of invader cells placed. -/
def makeInvGrid (w h : Nat) (inv : SName) (radius : Nat) : Grid × Nat :=
  (⟨w, h, fun y x => if invDist w h x y ≤ radius then inv else SName.alwaysD⟩,
   ((List.range h).flatMap fun y =>
     (List.range w).map fun x => if invDist w h x y ≤ radius then 1 else 0).sum)

/-- `count_cooperators(grid, ...)`: cells whose strategy is not
`AlwaysDefect` (the `invader_name` argument is unused in the source). -/
def countCoop (g : Grid) : Nat :=
  (cellList g).countP fun n => !(n == SName.alwaysD)

/-- The generation loop of `run_invasion` (`invade.py`): score, evolve,
append the cooperator count to the history; three consecutive unchanged
counts pad the history with the current count up to `tgt = generations + 1`
entries and break. -/
def invLoop (rs : Nat → Nat) (rounds tgt : Nat) :
    Nat → Grid → Nat → Nat → Nat → List Nat → List Nat × Grid × Nat
  | 0, g, _, _, k, hist => (hist, g, k)
  | left + 1, g, prevCount, stable, k, hist =>
      let sc := computeScoresPairwise g rounds PAYOFFS rs k
      let g1 := evolveGrid g (fun y x => index2 sc.1 y x 0)
      let c := countCoop g1
      let hist1 := hist ++ [c]
      if c = prevCount then
        if stable + 1 ≥ 3 then
          (hist1 ++ List.replicate (tgt - hist1.length) c, g1, sc.2)
        else invLoop rs rounds tgt left g1 c (stable + 1) sc.2 hist1
      else invLoop rs rounds tgt left g1 c 0 sc.2 hist1

/-- `run_invasion(width, height, invader_cls, radius, ...)` of
`invade.py`: seeded cluster grid, loop to the ceiling or stability,
returning `(history[-1], history, final grid)`. -/
def runInvasion (mers : Nat → Nat → Nat) (w h : Nat) (inv : SName)
    (radius rounds gens : Nat) (seed : Option Nat) (rs : Nat → Nat)
    (k : Nat) : Nat × List Nat × Grid :=
  let rsk : (Nat → Nat) × Nat :=
    match seed with
    | some s => (mers s, 0)
    | none => (rs, k)
  let gi := makeInvGrid w h inv radius
  let r := invLoop rsk.1 rounds (gens + 1) gens gi.1 gi.2 0 rsk.2 [gi.2]
  (r.1.getLastD 0, r.1, r.2.1)

/-! ## Census conservation (C1) -/

theorem sum_map_add (l : List α) (f g : α → ℕ) :
    (l.map fun a => f a + g a).sum = (l.map f).sum + (l.map g).sum := by
  induction l with
  | nil => rfl
  | cons a t ih => simp [ih]; omega

theorem sum_indicator_one (a : SName) :
    (allSNames.map fun n => if a == n then 1 else 0).sum = 1 := by
  cases a <;> rfl

theorem count_total (l : List SName) :
    (allSNames.map fun n => l.count n).sum = l.length := by
  induction l with
  | nil => rfl
  | cons a t ih =>
      simp only [List.count_cons]
      rw [sum_map_add, ih, sum_indicator_one, List.length_cons]

theorem sum_map_const (l : List α) (c : Nat) :
    (l.map fun _ => c).sum = l.length * c := by
  induction l with
  | nil => simp
  | cons a t ih => simp [ih]; ring

theorem cellList_length (g : Grid) :
    (cellList g).length = g.width * g.height := by
  simp only [cellList]
  rw [List.length_flatMap]
  have h : (List.length ∘ fun y => List.map (fun x => g.at x y) (List.range g.width))
      = fun _ => g.width := by
    funext y; simp
  rw [h, sum_map_const]
  simp [Nat.mul_comm]

/-- The census of any grid sums to `width * height`: every in-range cell
holds exactly one strategy name. -/
theorem census_total (g : Grid) :
    (allSNames.map (census g)).sum = g.width * g.height := by
  have : census g = fun n => (cellList g).count n := rfl
  rw [this, count_total, cellList_length]

theorem stepIter_dims (g : Grid) (rounds : Nat) (rs : Nat → Nat) :
    ∀ gens k, (stepIter g rounds rs gens k).1.width = g.width
      ∧ (stepIter g rounds rs gens k).1.height = g.height := by
  intro gens
  induction gens with
  | zero => intro k; exact ⟨rfl, rfl⟩
  | succ m ih =>
      intro k
      exact ⟨(ih k).1, (ih k).2⟩

/-- C1: population conservation.  For every initial grid, every
rounds-per-match, any global random stream, and every generation count,
the census after that many `SpatialGrid.step` evolutions sums to exactly
`width * height`; each step maps a width-by-height grid to another
width-by-height grid with one strategy per cell. -/
theorem population_conservation (g : Grid) (rounds : Nat) (rs : Nat → Nat)
    (k gens : Nat) :
    (allSNames.map (census (stepIter g rounds rs gens k).1)).sum
        = g.width * g.height
      ∧ (stepIter g rounds rs gens k).1.width = g.width
      ∧ (stepIter g rounds rs gens k).1.height = g.height := by
  refine ⟨?_, stepIter_dims g rounds rs gens k⟩
  rw [census_total, (stepIter_dims g rounds rs gens k).1,
    (stepIter_dims g rounds rs gens k).2]

/-! ## Randomness threading (C5) -/

/-- C5 counterexample: `GenerousTitForTat.choose` takes no random source
argument in the code; its forgiveness roll reads the module-global
generator.  In the embedding, its result after an opponent defection
differs for two different global-generator states even though all
explicit arguments (histories, instance state, index) are identical, so
the claim that no operation reads implicit global random state is false. -/
theorem gtft_reads_global_state :
    (choose .gtft SState.init [true] [false] (fun _ => 0) 0).1
      ≠ (choose .gtft SState.init [true] [false] (fun _ => 1) 0).1 := by
  decide

/-- C5 amended: all randomness flows through the module-global generator,
which `make_grid(seed)` reseeds; consequently a seeded
`run_simulation` is reproducible — its outcome is the same function of
the seed and parameters regardless of the global generator state (stream
and consumption index) left behind by earlier work, for every model
`mers` of the seeding function. -/
theorem seeded_run_reproducible (mers : Nat → Nat → Nat) (t : ℚ)
    (classes : List SName) (w h rounds gens s : Nat)
    (rs1 rs2 : Nat → Nat) (k1 k2 : Nat) :
    runSimulationE mers t classes w h rounds gens (some s) rs1 k1
      = runSimulationE mers t classes w h rounds gens (some s) rs2 k2 := rfl

/-! ## Critical-point finder (C6) -/

/-- C6 counterexample: the pair of samples `(1, 0.3), (2, 0.8)` brackets
the 0.5 threshold (rising through it), yet `find_critical_point` reports
no crossing: the scan only detects falls from `≥ 0.5` to `< 0.5`. -/
theorem findCriticalPoint_ascending_none :
    ((3:ℚ)/10 < 1/2 ∧ (1:ℚ)/2 < 8/10)
      ∧ findCriticalPoint [(1, 3/10), (2, 8/10)] = none := by
  refine ⟨by norm_num, ?_⟩
  norm_num [findCriticalPoint]

/-- C6 amended: `find_critical_point` scans the ordered samples for the
first adjacent pair whose metric falls from `≥ 0.5` to `< 0.5` (a
descending bracket) and returns the linear interpolation of the
parameter at metric exactly 0.5 — on the synthetic samples
`[(1, 0.8), (2, 0.6), (3, 0.3)]` it reports `7/3 ≈ 2.33`, between
parameters 2 and 3 — and when no adjacent descending bracket exists it
returns `none` rather than extrapolating. -/
theorem findCriticalPoint_spec :
    findCriticalPoint [(1, 8/10), (2, 6/10), (3, 3/10)] = some (7/3)
    ∧ (∀ t1 c1 t2 c2 : ℚ, ∀ rest : List (ℚ × ℚ), c1 ≥ 1/2 → c2 < 1/2 →
        findCriticalPoint ((t1, c1) :: (t2, c2) :: rest)
          = some (t1 + (1/2 - c1) * (t2 - t1) / (c2 - c1)))
    ∧ (∀ data : List (ℚ × ℚ),
        (∀ i, i + 1 < data.length →
          ¬((data.getD i (0, 0)).2 ≥ 1/2 ∧ (data.getD (i+1) (0, 0)).2 < 1/2)) →
        findCriticalPoint data = none) := by
  refine ⟨?_, ?_, ?_⟩
  · norm_num [findCriticalPoint]
  · intro t1 c1 t2 c2 rest h1 h2
    have hne : c1 ≠ c2 := by
      intro he
      rw [he] at h1
      exact absurd (lt_of_lt_of_le h2 h1) (lt_irrefl _)
    simp only [findCriticalPoint]
    rw [if_pos ⟨h1, h2⟩, if_neg hne]
  · intro data
    induction data with
    | nil => intro _; rfl
    | cons p t ih =>
        intro hno
        match t with
        | [] => rfl
        | q :: rest =>
            have h0 := hno 0 (by simp)
            simp only [List.getD_cons_zero, List.getD_cons_succ] at h0
            have htail : ∀ i, i + 1 < (q :: rest).length →
                ¬(((q :: rest).getD i (0, 0)).2 ≥ 1/2
                  ∧ ((q :: rest).getD (i+1) (0, 0)).2 < 1/2) := by
              intro i hi
              have := hno (i + 1) (by simpa using Nat.succ_lt_succ hi)
              simpa [List.getD_cons_succ] using this
            have := ih htail
            obtain ⟨tp, cp⟩ := p
            obtain ⟨tq, cq⟩ := q
            simp only [findCriticalPoint]
            rw [if_neg (by simpa using h0)]
            exact this

/-- Witness for the amended C6 at a concrete descending bracket. -/
theorem findCriticalPoint_spec_witness :
    findCriticalPoint [((4:ℚ), 1), (5, 0)]
      = some (4 + (1/2 - 1) * (5 - 4) / (0 - 1)) :=
  findCriticalPoint_spec.2.1 4 1 5 0 [] (by norm_num) (by norm_num)

/-! ## TitForTat vs AlwaysDefect (C8) -/

theorem matchLoop_tft_aD (rs : Nat → Nat) (r : Nat) :
    ∀ (hA hB : List Bool) (sA sB : ℚ) (k : Nat), hB ≠ [] →
      hB.getLastD true = false →
      matchLoop .tft .alwaysD PAYOFFS rs r SState.init SState.init hA hB sA sB k
        = (sA + r, sB + r, k) := by
  induction r with
  | zero => intro hA hB sA sB k _ _; simp [matchLoop]
  | succ m ih =>
      intro hA hB sA sB k hne hlast
      have hemp : hB.isEmpty = false := by
        simpa [List.isEmpty_iff] using hne
      simp only [matchLoop, choose, hemp, hlast, Bool.false_eq_true, if_false]
      rw [ih (hA ++ [false]) (hB ++ [false]) _ _ k (by simp) (by simp)]
      refine Prod.ext ?_ (Prod.ext ?_ rfl) <;> simp [PAYOFFS] <;> push_cast <;> ring

/-- C8: over any `N ≥ 1` rounds under the standard payoffs
(reward 3, sucker 0, temptation 5, punishment 1), `play_match` gives
TitForTat a total of `0 + 1·(N−1)` and AlwaysDefect `5 + 1·(N−1)`:
AlwaysDefect takes the temptation once, then both sides collect the
mutual-defection payoff every remaining round. -/
theorem tft_vs_alwaysD_scores (N : Nat) (hN : 1 ≤ N) (rs : Nat → Nat)
    (k : Nat) :
    playMatch .tft .alwaysD N PAYOFFS rs k
      = (0 + 1 * ((N - 1 : Nat) : ℚ), 5 + 1 * ((N - 1 : Nat) : ℚ), k) := by
  obtain ⟨n, rfl⟩ : ∃ n, N = n + 1 := ⟨N - 1, by omega⟩
  show matchLoop .tft .alwaysD PAYOFFS rs (n + 1)
      SState.init SState.init [] [] 0 0 k = _
  simp only [matchLoop, choose, List.isEmpty_nil, if_true]
  rw [matchLoop_tft_aD rs n ([] ++ [true]) ([] ++ [false]) _ _ k (by simp) (by simp)]
  refine Prod.ext ?_ (Prod.ext ?_ rfl) <;> simp [PAYOFFS]

/-- Witness for C8 at `N = 3`: TitForTat scores 2, AlwaysDefect 7. -/
theorem tft_vs_alwaysD_scores_witness :
    playMatch .tft .alwaysD 3 PAYOFFS (fun _ => 0) 0
      = (0 + 1 * ((3 - 1 : Nat) : ℚ), 5 + 1 * ((3 - 1 : Nat) : ℚ), 0) :=
  tft_vs_alwaysD_scores 3 (by decide) (fun _ => 0) 0

/-! ## Grudger irreversibility (C9) -/

/-- Grudger's side of a match against an arbitrary predetermined opponent
move sequence: at round `i` the opponent history passed to `choose` is
`opp.take i`, exactly as the round loop of `play_match` builds it, and
the instance state is threaded between rounds (Grudger consumes no
randomness, so the stream argument is immaterial). -/
def grudgerGo : List Bool → SState → List Bool → List Bool → List Bool
  | [], _, _, _ => []
  | o :: rest, st, myH, thH =>
      let r := choose .grudger st myH thH (fun _ => 0) 0
      r.1 :: grudgerGo rest r.2.1 (myH ++ [r.1]) (thH ++ [o])

/-- Grudger's moves over a whole match, starting from the reset state and
empty histories. -/
def grudgerPlay (opp : List Bool) : List Bool :=
  grudgerGo opp SState.init [] []

/-- Closed-form recurrence for Grudger's moves: `t` is the trigger flag
(`_betrayed`, or a defection sitting at the end of the visible opponent
history); Grudger defects exactly when the trigger is set, and the
trigger latches once the opponent has defected. -/
def gSpec : List Bool → Bool → List Bool
  | [], _ => []
  | o :: rest, t => (!t) :: gSpec rest (t || !o)

theorem grudgerGo_eq_gSpec (opp : List Bool) :
    ∀ st myH thH, grudgerGo opp st myH thH
      = gSpec opp (st.betrayed || (!thH.isEmpty && !thH.getLastD true)) := by
  induction opp with
  | nil => intro st myH thH; rfl
  | cons o rest ih =>
      intro st myH thH
      have hne : (thH ++ [o]).isEmpty = false := by simp [List.isEmpty_iff]
      cases hb : st.betrayed with
      | true =>
          simp only [grudgerGo, choose, hb, if_true]
          rw [ih]
          simp [gSpec, hb, hne, List.getLastD_concat]
      | false =>
          cases hc : (!thH.isEmpty && !thH.getLastD true) with
          | true =>
              simp only [grudgerGo, choose, hb, Bool.false_eq_true, if_false, hc,
                if_true]
              rw [ih]
              simp [gSpec, hc, hne, List.getLastD_concat]
          | false =>
              simp only [grudgerGo, choose, hb, Bool.false_eq_true, if_false, hc]
              rw [ih]
              simp [gSpec, hb, hc, hne, List.getLastD_concat]

theorem gSpec_true (l : List Bool) :
    gSpec l true = List.replicate l.length false := by
  induction l with
  | nil => rfl
  | cons o rest ih => simp [gSpec, ih, List.replicate_succ]

theorem getD_replicate_lt (n m : Nat) (hm : m < n) (a d : Bool) :
    (List.replicate n a).getD m d = a := by
  simp [List.getD_eq_getElem?_getD, List.getElem?_replicate, hm]

theorem gSpec_after_defect :
    ∀ (l : List Bool) (t : Bool) (k j : Nat), k < j → j < l.length →
      l.getD k true = false → (gSpec l t).getD j true = false := by
  intro l
  induction l with
  | nil => intro t k j _ hj _; simp at hj
  | cons o rest ih =>
      intro t k j hkj hj hk
      cases k with
      | zero =>
          simp only [List.getD_cons_zero] at hk
          obtain ⟨j0, rfl⟩ : ∃ j0, j = j0 + 1 := ⟨j - 1, by omega⟩
          have hlen : j0 < rest.length := by simpa using hj
          simp only [gSpec, List.getD_cons_succ, hk]
          rw [show (t || !false) = true by simp, gSpec_true,
            getD_replicate_lt _ _ hlen]
      | succ k0 =>
          obtain ⟨j0, rfl⟩ : ∃ j0, j = j0 + 1 := ⟨j - 1, by omega⟩
          simp only [List.getD_cons_succ] at hk
          simp only [gSpec, List.getD_cons_succ]
          exact ih _ k0 j0 (by omega) (by simpa using hj) hk

/-- C9: within a single match, once the opponent has defected on round
`k`, Grudger defects on every round `j > k` of that match regardless of
the opponent's subsequent moves; and from the reset state, Grudger
cooperates on round 1 of a new match. -/
theorem grudger_irreversible (opp : List Bool) (k j : Nat) (hkj : k < j)
    (hj : j < opp.length) (hdef : opp.getD k true = false) :
    (grudgerPlay opp).getD j true = false
    ∧ (∀ rs kk, (choose .grudger SState.init [] [] rs kk).1 = true) := by
  constructor
  · rw [grudgerPlay, grudgerGo_eq_gSpec]
    exact gSpec_after_defect opp _ k j hkj hj hdef
  · intro rs kk; rfl

/-- Witness for C9: the opponent defects on round 2 (index 1) of a
4-round match; Grudger defects on round 4 (index 3) even though the
opponent cooperated in between, and cooperates on round 1 after reset. -/
theorem grudger_irreversible_witness :
    (grudgerPlay [true, false, true, true]).getD 3 true = false
    ∧ (∀ rs kk, (choose .grudger SState.init [] [] rs kk).1 = true) :=
  grudger_irreversible [true, false, true, true] 1 3 (by decide) (by decide)
    (by decide)

/-! ## Neighborhood well-formedness (C7) -/

/-- C7 counterexample: on a 1×1 grid (positive dimensions), all 8
neighbor coordinates wrap onto the center cell itself, so they are
neither distinct from each other nor distinct from the center. -/
theorem neighbors_degenerate :
    neighbors 1 1 0 0 = List.replicate 8 (0, 0)
    ∧ (0, 0) ∈ neighbors 1 1 0 0
    ∧ ¬(neighbors 1 1 0 0).Pairwise (· ≠ ·) := by
  decide

/-- The neighbor list written out: `dy` outer, `dx` inner, center
skipped. -/
theorem neighbors_explicit (w h x y : Nat) :
    neighbors w h x y =
      [(wrap ((x:Int) + -1) w, wrap ((y:Int) + -1) h),
       (wrap ((x:Int) + 0) w, wrap ((y:Int) + -1) h),
       (wrap ((x:Int) + 1) w, wrap ((y:Int) + -1) h),
       (wrap ((x:Int) + -1) w, wrap ((y:Int) + 0) h),
       (wrap ((x:Int) + 1) w, wrap ((y:Int) + 0) h),
       (wrap ((x:Int) + -1) w, wrap ((y:Int) + 1) h),
       (wrap ((x:Int) + 0) w, wrap ((y:Int) + 1) h),
       (wrap ((x:Int) + 1) w, wrap ((y:Int) + 1) h)] := rfl

theorem wrap_lt (a : Int) (m : Nat) (hm : 0 < m) : wrap a m < m := by
  have h1 : 0 ≤ a.emod m := Int.emod_nonneg a (by exact_mod_cast hm.ne')
  have h2 : a.emod m < m := Int.emod_lt_of_pos a (by exact_mod_cast hm)
  simp only [wrap]
  omega

theorem wrap_self (x m : Nat) (hx : x < m) : wrap ((x:Int) + 0) m = x := by
  have h1 : ((x:Int)).emod m = x :=
    Int.emod_eq_of_lt (Int.natCast_nonneg x) (by exact_mod_cast hx)
  simp [wrap, h1]

theorem wrap_shift_ne (a : Int) (m : Nat) (hm : 3 ≤ m) (d1 d2 : Int)
    (h1 : d1.natAbs ≤ 1) (h2 : d2.natAbs ≤ 1) (hne : d1 ≠ d2) :
    wrap (a + d1) m ≠ wrap (a + d2) m := by
  intro heq
  have hm0 : (0:Int) < m := by exact_mod_cast Nat.lt_of_lt_of_le (by norm_num) hm
  have n1 : 0 ≤ (a + d1).emod m := Int.emod_nonneg _ (by omega)
  have n2 : 0 ≤ (a + d2).emod m := Int.emod_nonneg _ (by omega)
  have e1 : (a + d1).emod m = (a + d2).emod m := by
    have ht : ((a + d1).emod m).toNat = ((a + d2).emod m).toNat := heq
    omega
  have hz : ((a + d1) - (a + d2)).emod m = 0 :=
    Int.emod_eq_emod_iff_emod_sub_eq_zero.mp e1
  have hdvd : (m:Int) ∣ (d1 - d2) := by
    have hd := Int.dvd_of_emod_eq_zero hz
    have : (a + d1) - (a + d2) = d1 - d2 := by ring
    rwa [this] at hd
  have habs : (m:Int) ∣ |d1 - d2| := (dvd_abs _ _).mpr hdvd
  have hpos : 0 < |d1 - d2| := abs_pos.mpr (sub_ne_zero.mpr hne)
  have hle : (m:Int) ≤ |d1 - d2| := Int.le_of_dvd hpos habs
  have hsmall : (d1 - d2).natAbs ≤ 2 := by omega
  rw [Int.abs_eq_natAbs] at hle
  have : m ≤ (d1 - d2).natAbs := by exact_mod_cast hle
  omega

theorem pair_ne_of_ne {a b c d : Nat} (h : a ≠ c ∨ b ≠ d) :
    (a, b) ≠ (c, d) := by
  intro heq
  injection heq with h1 h2
  rcases h with h | h <;> contradiction

/-- C7 amended: on every grid with `width ≥ 3` and `height ≥ 3` and for
every in-range coordinate, `neighbors(x, y)` returns exactly 8
coordinate pairs in its fixed enumeration order, pairwise distinct, all
within bounds after modular wrapping, and none equal to the center.
(On widths or heights below 3 the wrapped offsets collide, as
`neighbors_degenerate` shows.) -/
theorem neighbors_wellformed (w h x y : Nat) (hw : 3 ≤ w) (hh : 3 ≤ h)
    (hx : x < w) (hy : y < h) :
    (neighbors w h x y).length = 8
    ∧ (neighbors w h x y).Pairwise (· ≠ ·)
    ∧ (∀ c ∈ neighbors w h x y, c.1 < w ∧ c.2 < h)
    ∧ (x, y) ∉ neighbors w h x y := by
  have hwx : wrap ((x:Int) + 0) w = x := wrap_self x w hx
  have hwy : wrap ((y:Int) + 0) h = y := wrap_self y h hy
  have hxA : wrap ((x:Int) + -1) w ≠ wrap ((x:Int) + 0) w :=
    wrap_shift_ne _ _ hw _ _ (by decide) (by decide) (by decide)
  have hxB : wrap ((x:Int) + -1) w ≠ wrap ((x:Int) + 1) w :=
    wrap_shift_ne _ _ hw _ _ (by decide) (by decide) (by decide)
  have hxC : wrap ((x:Int) + 0) w ≠ wrap ((x:Int) + 1) w :=
    wrap_shift_ne _ _ hw _ _ (by decide) (by decide) (by decide)
  have hyA : wrap ((y:Int) + -1) h ≠ wrap ((y:Int) + 0) h :=
    wrap_shift_ne _ _ hh _ _ (by decide) (by decide) (by decide)
  have hyB : wrap ((y:Int) + -1) h ≠ wrap ((y:Int) + 1) h :=
    wrap_shift_ne _ _ hh _ _ (by decide) (by decide) (by decide)
  have hyC : wrap ((y:Int) + 0) h ≠ wrap ((y:Int) + 1) h :=
    wrap_shift_ne _ _ hh _ _ (by decide) (by decide) (by decide)
  have hxm : wrap ((x:Int) + -1) w ≠ x := fun he => hxA (he.trans hwx.symm)
  have hxp : wrap ((x:Int) + 1) w ≠ x := fun he => hxC.symm (he.trans hwx.symm)
  have hym : wrap ((y:Int) + -1) h ≠ y := fun he => hyA (he.trans hwy.symm)
  have hyp2 : wrap ((y:Int) + 1) h ≠ y := fun he => hyC.symm (he.trans hwy.symm)
  refine ⟨by rw [neighbors_explicit]; rfl, ?_, ?_, ?_⟩
  · rw [neighbors_explicit]
    simp only [List.pairwise_cons, List.forall_mem_cons]
    repeat' apply And.intro
    all_goals first
      | trivial
      | exact List.Pairwise.nil
      | (intro c hc; cases hc)
      | (apply pair_ne_of_ne;
         first
           | exact Or.inl hxA | exact Or.inl hxA.symm
           | exact Or.inl hxB | exact Or.inl hxB.symm
           | exact Or.inl hxC | exact Or.inl hxC.symm
           | exact Or.inr hyA | exact Or.inr hyA.symm
           | exact Or.inr hyB | exact Or.inr hyB.symm
           | exact Or.inr hyC | exact Or.inr hyC.symm)
  · rw [neighbors_explicit]
    intro c hc
    simp only [List.mem_cons, List.not_mem_nil, or_false] at hc
    rcases hc with rfl | rfl | rfl | rfl | rfl | rfl | rfl | rfl <;>
      dsimp only <;>
      exact ⟨wrap_lt _ _ (by omega), wrap_lt _ _ (by omega)⟩
  · rw [neighbors_explicit]
    intro hmem
    simp only [List.mem_cons, List.not_mem_nil, or_false] at hmem
    rcases hmem with hmm | hmm | hmm | hmm | hmm | hmm | hmm | hmm <;>
      injection hmm with h1 h2 <;>
      first
        | exact hxm h1.symm
        | exact hxp h1.symm
        | exact hym h2.symm
        | exact hyp2 h2.symm

/-- Witness for the amended C7 on a 3×3 grid at the corner cell. -/
theorem neighbors_wellformed_witness :
    (neighbors 3 3 0 0).length = 8
    ∧ (neighbors 3 3 0 0).Pairwise (· ≠ ·)
    ∧ (∀ c ∈ neighbors 3 3 0 0, c.1 < 3 ∧ c.2 < 3)
    ∧ (0, 0) ∉ neighbors 3 3 0 0 :=
  neighbors_wellformed 3 3 0 0 (by decide) (by decide) (by decide) (by decide)

/-! ## Update-phase tie-break (C2) -/

/-- `r` is the first element of `l` attaining the maximum of `f` over
`l`: everything before it is strictly smaller, everything in `l` is at
most `f r`. -/
def IsFirstMax (f : α → ℚ) (l : List α) (r : α) : Prop :=
  ∃ pre post, l = pre ++ r :: post
    ∧ (∀ c ∈ pre, f c < f r) ∧ ∀ c ∈ l, f c ≤ f r

/-- The strict-greater fold over candidates (initial candidate first)
selects exactly the first maximum: ties keep the earlier candidate. -/
theorem foldl_pickBest (f : α → ℚ) :
    ∀ (l : List α) (b : α),
      IsFirstMax f (b :: l)
        (l.foldl (fun acc c => if f c > f acc then c else acc) b) := by
  intro l
  induction l with
  | nil =>
      intro b
      exact ⟨[], [], rfl, by simp, by simp⟩
  | cons c t ih =>
      intro b
      simp only [List.foldl_cons]
      by_cases hcb : f c > f b
      · rw [if_pos hcb]
        obtain ⟨pre, post, heq, hpre, hall⟩ := ih c
        have hr : f c ≤ f (t.foldl (fun acc d => if f d > f acc then d else acc) c) :=
          hall c (List.mem_cons_self c t)
        refine ⟨b :: pre, post, ?_, ?_, ?_⟩
        · rw [List.cons_append, ← heq]
        · intro d hd
          rcases List.mem_cons.mp hd with rfl | hd
          · exact lt_of_lt_of_le hcb hr
          · exact hpre d hd
        · intro d hd
          rcases List.mem_cons.mp hd with rfl | hd
          · exact le_of_lt (lt_of_lt_of_le hcb hr)
          · exact hall d (heq ▸ hd)
      · rw [if_neg hcb]
        have hle : f c ≤ f b := le_of_not_lt hcb
        obtain ⟨pre, post, heq, hpre, hall⟩ := ih b
        cases pre with
        | nil =>
            injection heq with h1 h2
            refine ⟨[], c :: t, by rw [← h1]; rfl, by simp, ?_⟩
            intro d hd
            rcases List.mem_cons.mp hd with rfl | hd
            · exact le_of_eq (congrArg f h1)
            · rcases List.mem_cons.mp hd with rfl | hd
              · rw [← h1]; exact hle
              · exact hall d (List.mem_cons_of_mem b hd)
        | cons p pre2 =>
            injection heq with h1 h2
            have hpb : f b < f (t.foldl (fun acc d => if f d > f acc then d else acc) b) := by
              have := hpre p (List.mem_cons_self p pre2)
              rwa [← h1] at this
            refine ⟨b :: c :: pre2, post, ?_, ?_, ?_⟩
            · conv_lhs => rw [h2]
              rfl
            · intro d hd
              rcases List.mem_cons.mp hd with rfl | hd
              · exact hpb
              · rcases List.mem_cons.mp hd with rfl | hd
                · exact lt_of_le_of_lt hle hpb
                · exact hpre d (List.mem_cons_of_mem p hd)
            · intro d hd
              rcases List.mem_cons.mp hd with rfl | hd
              · exact le_of_lt hpb
              · rcases List.mem_cons.mp hd with rfl | hd
                · exact le_trans hle (le_of_lt hpb)
                · exact hall d (List.mem_cons_of_mem b (h2 ▸ hd))

/-- The candidate selected by the candidate fold. -/
def pickBest (f : Nat × Nat → ℚ) (b : Nat × Nat) (l : List (Nat × Nat)) :
    Nat × Nat :=
  l.foldl (fun acc c => if f c > f acc then c else acc) b

/-- The `(best_score, best_x, best_y)` scan of `SpatialGrid.step` tracks
exactly the score of the fold-selected candidate: the running score
variable always equals the score at the running best coordinate. -/
theorem foldl_score_track (f : Nat × Nat → ℚ) :
    ∀ (l : List (Nat × Nat)) (b : Nat × Nat),
      l.foldl (fun (acc : ℚ × Nat × Nat) c => if f c > acc.1 then (f c, c) else acc)
          (f b, b)
        = (f (pickBest f b l), pickBest f b l) := by
  intro l
  induction l with
  | nil => intro b; rfl
  | cons c t ih =>
      intro b
      simp only [List.foldl_cons, pickBest]
      by_cases hcb : f c > f b
      · rw [if_pos hcb, if_pos hcb]; exact ih c
      · rw [if_neg hcb, if_neg hcb]; exact ih b

theorem bestNeighbor_eq_pickBest (scores : Nat → Nat → ℚ) (w h x y : Nat) :
    bestNeighbor scores w h x y
      = (scores (pickBest (fun c => scores c.2 c.1) (x, y) (neighbors w h x y)).2
           (pickBest (fun c => scores c.2 c.1) (x, y) (neighbors w h x y)).1,
         pickBest (fun c => scores c.2 c.1) (x, y) (neighbors w h x y)) :=
  foldl_score_track (fun c => scores c.2 c.1) (neighbors w h x y) (x, y)

/-- C2: in the update phase of `SpatialGrid.step`, the strategy written
at each cell is that of a candidate (the cell itself first, then the
neighbors in the fixed enumeration order) that is the *first* to attain
the maximal score — a neighbor displaces the running best only on a
strictly greater score, so exact ties keep the earlier-found candidate —
and in particular the cell keeps its own strategy whenever no neighbor
scores strictly higher. -/
theorem update_tiebreak (g : Grid) (scores : Nat → Nat → ℚ) (x y : Nat) :
    (∃ c : Nat × Nat,
        IsFirstMax (fun c => scores c.2 c.1)
          ((x, y) :: neighbors g.width g.height x y) c
        ∧ (stepNewGrid g scores).cells y x = g.at c.1 c.2)
    ∧ ((∀ c ∈ neighbors g.width g.height x y, scores c.2 c.1 ≤ scores y x) →
        (stepNewGrid g scores).cells y x = g.at x y) := by
  have hmain : ∃ c : Nat × Nat,
      IsFirstMax (fun c => scores c.2 c.1)
        ((x, y) :: neighbors g.width g.height x y) c
      ∧ (stepNewGrid g scores).cells y x = g.at c.1 c.2 := by
    refine ⟨pickBest (fun c => scores c.2 c.1) (x, y)
      (neighbors g.width g.height x y), ?_, ?_⟩
    · exact foldl_pickBest _ _ _
    · have h0 : (stepNewGrid g scores).cells y x
          = g.at (bestNeighbor scores g.width g.height x y).2.1
              (bestNeighbor scores g.width g.height x y).2.2 := rfl
      rw [h0, bestNeighbor_eq_pickBest]
  refine ⟨hmain, ?_⟩
  intro hle
  obtain ⟨c, ⟨pre, post, heq, hpre, hall⟩, hcell⟩ := hmain
  cases pre with
  | nil =>
      injection heq with h1 h2
      rw [hcell, ← h1]
  | cons p pre2 =>
      injection heq with h1 h2
      have hlt : scores y x < scores c.2 c.1 := by
        have := hpre p (List.mem_cons_self p pre2)
        rwa [← h1] at this
      have hcm : c ∈ neighbors g.width g.height x y := by
        rw [h2]
        exact List.mem_append_right _ (List.mem_cons_self c post)
      exact absurd (hle c hcm) (not_le.mpr hlt)

/-- Witness for C2: on a uniform 3×3 grid with an all-zero score grid
(every neighbor ties the cell), the cell keeps its own strategy. -/
theorem update_tiebreak_witness :
    (stepNewGrid ⟨3, 3, fun _ _ => SName.alwaysD⟩ (fun _ _ => 0)).cells 1 1
      = (⟨3, 3, fun _ _ => SName.alwaysD⟩ : Grid).at 1 1 :=
  (update_tiebreak ⟨3, 3, fun _ _ => SName.alwaysD⟩ (fun _ _ => 0) 1 1).2
    (fun c _ => le_refl 0)

/-! ## Invasion history invariant (C10) -/

theorem invLoop_extends (rs : Nat → Nat) (rounds tgt : Nat) :
    ∀ (left : Nat) (g : Grid) (prevCount stable k : Nat) (hist : List Nat),
      ∃ s, (invLoop rs rounds tgt left g prevCount stable k hist).1 = hist ++ s := by
  intro left
  induction left with
  | zero =>
      intro g p st k hist
      exact ⟨[], by simp [invLoop]⟩
  | succ m ih =>
      intro g p st k hist
      simp only [invLoop]
      split_ifs with h1 h2
      · exact ⟨_, by rw [List.append_assoc]⟩
      · obtain ⟨s, hs⟩ := ih (evolveGrid g fun y x =>
          index2 (computeScoresPairwise g rounds PAYOFFS rs k).1 y x 0)
          (countCoop (evolveGrid g fun y x =>
            index2 (computeScoresPairwise g rounds PAYOFFS rs k).1 y x 0))
          (st + 1) (computeScoresPairwise g rounds PAYOFFS rs k).2
          (hist ++ [countCoop (evolveGrid g fun y x =>
            index2 (computeScoresPairwise g rounds PAYOFFS rs k).1 y x 0)])
        exact ⟨_, hs.trans (List.append_assoc _ _ _)⟩
      · obtain ⟨s, hs⟩ := ih (evolveGrid g fun y x =>
          index2 (computeScoresPairwise g rounds PAYOFFS rs k).1 y x 0)
          (countCoop (evolveGrid g fun y x =>
            index2 (computeScoresPairwise g rounds PAYOFFS rs k).1 y x 0))
          0 (computeScoresPairwise g rounds PAYOFFS rs k).2
          (hist ++ [countCoop (evolveGrid g fun y x =>
            index2 (computeScoresPairwise g rounds PAYOFFS rs k).1 y x 0)])
        exact ⟨_, hs.trans (List.append_assoc _ _ _)⟩

theorem invLoop_length (rs : Nat → Nat) (rounds tgt : Nat) :
    ∀ (left : Nat) (g : Grid) (prevCount stable k : Nat) (hist : List Nat),
      hist.length + left = tgt →
      (invLoop rs rounds tgt left g prevCount stable k hist).1.length = tgt := by
  intro left
  induction left with
  | zero =>
      intro g p st k hist hlen
      simpa [invLoop] using hlen
  | succ m ih =>
      intro g p st k hist hlen
      simp only [invLoop]
      split_ifs with h1 h2
      · simp only [List.length_append, List.length_replicate,
          List.length_cons, List.length_nil]
        omega
      · refine ih _ _ _ _ _ ?_
        simp only [List.length_append, List.length_cons, List.length_nil]
        omega
      · refine ih _ _ _ _ _ ?_
        simp only [List.length_append, List.length_cons, List.length_nil]
        omega

/-- C10: `run_invasion` always returns a population history of exactly
`generations + 1` entries, whose first entry is the initial
invader-cluster cell count (early stability stops pad the history with
the final count up to that full length); its first return value is the
last entry of the history. -/
theorem runInvasion_history (mers : Nat → Nat → Nat) (w h : Nat)
    (inv : SName) (radius rounds gens : Nat) (seed : Option Nat)
    (rs : Nat → Nat) (k : Nat) :
    (runInvasion mers w h inv radius rounds gens seed rs k).2.1.length = gens + 1
    ∧ (runInvasion mers w h inv radius rounds gens seed rs k).2.1.headD 0
        = (makeInvGrid w h inv radius).2
    ∧ (runInvasion mers w h inv radius rounds gens seed rs k).1
        = (runInvasion mers w h inv radius rounds gens seed rs k).2.1.getLastD 0 := by
  cases seed with
  | none =>
      refine ⟨?_, ?_, rfl⟩
      · exact invLoop_length rs rounds (gens + 1) gens _ _ _ _ _ (by simp [Nat.add_comm])
      · obtain ⟨s, hs⟩ := invLoop_extends rs rounds (gens + 1) gens
          (makeInvGrid w h inv radius).1 (makeInvGrid w h inv radius).2 0 k
          [(makeInvGrid w h inv radius).2]
        have he : (runInvasion mers w h inv radius rounds gens none rs k).2.1
            = [(makeInvGrid w h inv radius).2] ++ s := hs
        rw [he]
        simp
  | some s0 =>
      refine ⟨?_, ?_, rfl⟩
      · exact invLoop_length (mers s0) rounds (gens + 1) gens _ _ _ _ _ (by simp [Nat.add_comm])
      · obtain ⟨s, hs⟩ := invLoop_extends (mers s0) rounds (gens + 1) gens
          (makeInvGrid w h inv radius).1 (makeInvGrid w h inv radius).2 0 0
          [(makeInvGrid w h inv radius).2]
        have he : (runInvasion mers w h inv radius rounds gens (some s0) rs k).2.1
            = [(makeInvGrid w h inv radius).2] ++ s := hs
        rw [he]
        simp

/-! ## Convergence loop (C3) -/

theorem threadMap_go_values (f : Nat → Nat → α × Nat) (v : Nat → α) :
    ∀ (l : List Nat), (∀ i ∈ l, ∀ k0, (f i k0).1 = v i) →
      ∀ (acc : List α) (k : Nat),
        (l.foldl (fun acc i => let r := f i acc.2; (acc.1 ++ [r.1], r.2)) (acc, k)).1
          = acc ++ l.map v := by
  intro l
  induction l with
  | nil => intro _ acc k; simp
  | cons i t ih =>
      intro hf acc k
      simp only [List.foldl_cons, List.map_cons]
      rw [ih (fun j hj k0 => hf j (List.mem_cons_of_mem i hj) k0), hf i
        (List.mem_cons_self i t) k, List.append_assoc]
      rfl

theorem threadMap_go_keeps (f : Nat → Nat → α × Nat) :
    ∀ (l : List Nat), (∀ i ∈ l, ∀ k0, (f i k0).2 = k0) →
      ∀ (acc : List α) (k : Nat),
        (l.foldl (fun acc i => let r := f i acc.2; (acc.1 ++ [r.1], r.2)) (acc, k)).2
          = k := by
  intro l
  induction l with
  | nil => intro _ acc k; rfl
  | cons i t ih =>
      intro hf acc k
      simp only [List.foldl_cons]
      rw [ih (fun j hj k0 => hf j (List.mem_cons_of_mem i hj) k0),
        hf i (List.mem_cons_self i t) k]

theorem buildGrid2_go_values (w : Nat) (f : Nat → Nat → Nat → α × Nat)
    (v : Nat → Nat → α) :
    ∀ (l : List Nat), (∀ x, x < w → ∀ y ∈ l, ∀ k0, (f x y k0).1 = v x y) →
      ∀ (acc : List (List α)) (k : Nat),
      (l.foldl (fun acc y =>
          let r := threadMap (fun x => f x y) (List.range w) acc.2
          (acc.1 ++ [r.1], r.2)) (acc, k)).1
        = acc ++ l.map (fun y => (List.range w).map fun x => v x y) := by
  intro l
  induction l with
  | nil => intro _ acc k; simp
  | cons y t ih =>
      intro hf acc k
      simp only [List.foldl_cons, List.map_cons]
      have hrow : ∀ k1, (threadMap (fun x => f x y) (List.range w) k1).1
          = (List.range w).map fun x => v x y := by
        intro k1
        exact threadMap_go_values _ _ (List.range w)
          (fun i hi k0 => hf i (List.mem_range.mp hi) y
            (List.mem_cons_self y t) k0) [] k1
      rw [show (threadMap (fun x => f x y) (List.range w) k)
          = ((threadMap (fun x => f x y) (List.range w) k).1,
             (threadMap (fun x => f x y) (List.range w) k).2) from rfl]
      rw [ih (fun x hx y2 hy2 k0 =>
          hf x hx y2 (List.mem_cons_of_mem y hy2) k0),
        hrow, List.append_assoc]
      rfl

/-- Values of a threaded buffer build, when each in-range entry is
independent of the random index. -/
theorem buildGrid2_values (w h : Nat) (f : Nat → Nat → Nat → α × Nat)
    (v : Nat → Nat → α)
    (hf : ∀ x, x < w → ∀ y, y < h → ∀ k0, (f x y k0).1 = v x y) (k : Nat) :
    (buildGrid2 w h f k).1 = pureGrid2 w h v :=
  buildGrid2_go_values w f v (List.range h)
    (fun x hx y hy k0 => hf x hx y (List.mem_range.mp hy) k0) [] k

theorem buildGrid2_go_keeps (w : Nat) (f : Nat → Nat → Nat → α × Nat)
    (hf : ∀ x, x < w → ∀ y k0, (f x y k0).2 = k0) :
    ∀ (l : List Nat) (acc : List (List α)) (k : Nat),
      (l.foldl (fun acc y =>
          let r := threadMap (fun x => f x y) (List.range w) acc.2
          (acc.1 ++ [r.1], r.2)) (acc, k)).2 = k := by
  intro l
  induction l with
  | nil => intro acc k; rfl
  | cons y t ih =>
      intro acc k
      simp only [List.foldl_cons]
      have hkeep : ∀ k1, (threadMap (fun x => f x y) (List.range w) k1).2 = k1 :=
        fun k1 => threadMap_go_keeps _ (List.range w)
          (fun i hi k0 => hf i (List.mem_range.mp hi) y k0) [] k1
      rw [show (threadMap (fun x => f x y) (List.range w) k)
          = ((threadMap (fun x => f x y) (List.range w) k).1,
             (threadMap (fun x => f x y) (List.range w) k).2) from rfl]
      rw [ih, hkeep]

/-- Thread preservation of a buffer build whose entries consume no
randomness. -/
theorem buildGrid2_keeps (w h : Nat) (f : Nat → Nat → Nat → α × Nat)
    (hf : ∀ x, x < w → ∀ y k0, (f x y k0).2 = k0) (k : Nat) :
    (buildGrid2 w h f k).2 = k :=
  buildGrid2_go_keeps w f hf (List.range h) [] k

theorem getD_map_range (n : Nat) (f : Nat → α) (i : Nat) (hi : i < n) (d : α) :
    ((List.range n).map f).getD i d = f i := by
  rw [List.getD_eq_getElem?_getD, List.getElem?_map, List.getElem?_range hi]
  rfl

theorem index2_pureGrid2 (w h : Nat) (v : Nat → Nat → α) (y x : Nat)
    (hy : y < h) (hx : x < w) (d : α) :
    index2 (pureGrid2 w h v) y x d = v x y := by
  unfold index2 pureGrid2
  rw [getD_map_range _ _ _ hy, getD_map_range _ _ _ hx]

/-- A grid holding the same strategy class everywhere. -/
def uniformGrid (w h : Nat) (c : SName) : Grid := ⟨w, h, fun _ _ => c⟩

/-- `make_grid` with a singleton strategy list places that class on every
cell: `random.choice` over one class is that class whatever the draws. -/
theorem makeGridE_uniform (mers : Nat → Nat → Nat) (c : SName) (w h : Nat)
    (s : Nat) (rs : Nat → Nat) (k : Nat) (hw : 0 < w) (hh : 0 < h)
    (x y : Nat) :
    ((makeGridE mers [c] w h (some s) rs k).1).at x y = c := by
  have hv : (buildGrid2 w h (fun _ _ k0 =>
      (([c] : List SName).getD (mers s k0 % ([c] : List SName).length)
        SName.alwaysD, k0 + 1)) 0).1 = pureGrid2 w h (fun _ _ => c) :=
    buildGrid2_values w h _ (fun _ _ => c)
      (fun x2 _ y2 _ k0 => by simp [Nat.mod_one]) 0
  show index2 (buildGrid2 w h (fun _ _ k0 =>
      (([c] : List SName).getD (mers s k0 % ([c] : List SName).length)
        SName.alwaysD, k0 + 1)) 0).1 (y % h) (x % w) SName.alwaysD = c
  rw [hv]
  exact index2_pureGrid2 w h _ _ _ (Nat.mod_lt _ hh) (Nat.mod_lt _ hw) _

/-- A grid that reads the same class at every wrapped coordinate evolves
to the uniform grid: every candidate in every cell's neighborhood-plus-
self scan carries the same class, so the fold returns it. -/
theorem evolveGrid_const (g : Grid) (c : SName)
    (hc : ∀ x y, g.at x y = c) (scores : Nat → Nat → ℚ) :
    evolveGrid g scores = uniformGrid g.width g.height c := by
  have hfold : ∀ (l : List (Nat × Nat)) (b : ℚ × SName), b.2 = c →
      (∀ d ∈ l, g.at d.1 d.2 = c) →
      (l.foldl (fun b cc =>
        if scores cc.2 cc.1 > b.1 then (scores cc.2 cc.1, g.at cc.1 cc.2)
        else b) b).2 = c := by
    intro l
    induction l with
    | nil => intro b hb _; exact hb
    | cons d t ih =>
        intro b hb hl
        simp only [List.foldl_cons]
        by_cases hd : scores d.2 d.1 > b.1
        · rw [if_pos hd]
          exact ih _ (hl d (List.mem_cons_self d t))
            (fun e he => hl e (List.mem_cons_of_mem d he))
        · rw [if_neg hd]
          exact ih _ hb (fun e he => hl e (List.mem_cons_of_mem d he))
  have hcell : ∀ y x, evolveCell g scores x y = c := by
    intro y x
    exact hfold _ _ (hc x y) (fun d _ => hc d.1 d.2)
  show Grid.mk g.width g.height (fun y x => evolveCell g scores x y)
      = Grid.mk g.width g.height (fun _ _ => c)
  congr 1
  funext y x
  exact hcell y x

theorem censusEq_refl (c : SName → Nat) : censusEq c c = true := by
  simp [censusEq]

/-- One `run_simulation` loop iteration from the initial (no previous
census) state, when the grid evolves to a uniform grid. -/
theorem simLoop_step_none (pay : Bool → Bool → ℚ) (rs : Nat → Nat)
    (rounds : Nat) (g : Grid) (w h : Nat) (c : SName)
    (hg : ∀ sc : Nat → Nat → ℚ, evolveGrid g sc = uniformGrid w h c)
    (m st k iters : Nat) :
    simLoop pay rs rounds (m + 1) g none st k iters
      = simLoop pay rs rounds m (uniformGrid w h c)
          (some (census (uniformGrid w h c))) 0
          (computeScoresPairwise g rounds pay rs k).2 (iters + 1) := by
  simp only [simLoop]
  rw [hg]

/-- One loop iteration from a uniform grid whose census matches the
previous one, below the stability threshold: the stable counter
increments. -/
theorem simLoop_step_stable (pay : Bool → Bool → ℚ) (rs : Nat → Nat)
    (rounds w h : Nat) (c : SName) (p : SName → Nat) (st : Nat)
    (hEq : censusEq (census (uniformGrid w h c)) p = true)
    (hlt : ¬st + 1 ≥ 3) (m k iters : Nat) :
    simLoop pay rs rounds (m + 1) (uniformGrid w h c) (some p) st k iters
      = simLoop pay rs rounds m (uniformGrid w h c)
          (some (census (uniformGrid w h c))) (st + 1)
          (computeScoresPairwise (uniformGrid w h c) rounds pay rs k).2
          (iters + 1) := by
  have hred : uniformGrid (uniformGrid w h c).width
      (uniformGrid w h c).height c = uniformGrid w h c := rfl
  simp only [simLoop]
  rw [evolveGrid_const (uniformGrid w h c) c (fun _ _ => rfl)]
  simp only [hred, hEq, if_true, hlt, if_false]

/-- One loop iteration from a uniform grid at the stability threshold:
the loop breaks, reporting the iteration count. -/
theorem simLoop_step_break (pay : Bool → Bool → ℚ) (rs : Nat → Nat)
    (rounds w h : Nat) (c : SName) (p : SName → Nat) (st : Nat)
    (hEq : censusEq (census (uniformGrid w h c)) p = true)
    (hge : st + 1 ≥ 3) (m k iters : Nat) :
    simLoop pay rs rounds (m + 1) (uniformGrid w h c) (some p) st k iters
      = (uniformGrid w h c,
         (computeScoresPairwise (uniformGrid w h c) rounds pay rs k).2,
         iters + 1) := by
  have hred : uniformGrid (uniformGrid w h c).width
      (uniformGrid w h c).height c = uniformGrid w h c := rfl
  simp only [simLoop]
  rw [evolveGrid_const (uniformGrid w h c) c (fun _ _ => rfl)]
  simp only [hred, hEq, if_true, hge]

/-- A uniformly seeded `run_simulation` executes exactly 4 loop
iterations whenever the generation ceiling is at least 4: the census is
constant from the first generation, the 3-consecutive-stable rule fires
at loop index 3, and the loop breaks there. -/
theorem runSimulationE_uniform_iters (mers : Nat → Nat → Nat) (t : ℚ)
    (c : SName) (w h rounds gens s : Nat) (rs : Nat → Nat) (k : Nat)
    (hw : 0 < w) (hh : 0 < h) (hg : 4 ≤ gens) :
    (runSimulationE mers t [c] w h rounds gens (some s) rs k).2.2 = 4 := by
  obtain ⟨m, rfl⟩ : ∃ m, gens = m + 4 := ⟨gens - 4, by omega⟩
  have hc : ∀ x y, ((makeGridE mers [c] w h (some s) rs k).1).at x y = c :=
    fun x y => makeGridE_uniform mers c w h s rs k hw hh x y
  have hgu : ∀ sc : Nat → Nat → ℚ,
      evolveGrid (makeGridE mers [c] w h (some s) rs k).1 sc
        = uniformGrid w h c :=
    fun sc => evolveGrid_const _ c hc sc
  show (simLoop (tPayoffs t) (mers s) rounds (m + 4)
      (makeGridE mers [c] w h (some s) rs k).1 none 0
      (makeGridE mers [c] w h (some s) rs k).2.2 0).2.2 = 4
  rw [show m + 4 = (m + 3) + 1 from rfl,
    simLoop_step_none (tPayoffs t) (mers s) rounds _ w h c hgu]
  rw [show m + 3 = (m + 2) + 1 from rfl,
    simLoop_step_stable (tPayoffs t) (mers s) rounds w h c _ 0
      (censusEq_refl _) (by omega)]
  rw [show m + 2 = (m + 1) + 1 from rfl,
    simLoop_step_stable (tPayoffs t) (mers s) rounds w h c _ 1
      (censusEq_refl _) (by omega)]
  rw [simLoop_step_break (tPayoffs t) (mers s) rounds w h c _ 2
    (censusEq_refl _) (by omega)]

/-- C3 counterexample: on a concrete 1×1 grid seeded with a single
strategy everywhere (`strategy_classes = [AlwaysDefect]`), the
`run_simulation` loop executes 4 iterations (its loop index reaches 3)
before the 3-consecutive-stable-census rule fires — not generation 0
or 1 — and the source has no separate collapse-to-single-strategy
stopping test. -/
theorem uniform_seed_gen3_counterexample :
    (runSimulationE (fun _ _ => 0) 5 [SName.alwaysD] 1 1 1 10 (some 0)
      (fun _ => 0) 0).2.2 = 4
    ∧ ¬((runSimulationE (fun _ _ => 0) 5 [SName.alwaysD] 1 1 1 10 (some 0)
        (fun _ => 0) 0).2.2 ≤ 2) := by
  have h4 := runSimulationE_uniform_iters (fun _ _ => 0) 5 SName.alwaysD
    1 1 1 10 0 (fun _ => 0) 0 (by decide) (by decide) (by decide)
  exact ⟨h4, by rw [h4]; decide⟩

/-- C3 amended: the `run_simulation` loop stops early exactly when the
census (compared by value) has been unchanged for 3 consecutive
generations; there is no separate collapse-to-a-single-strategy stopping
test.  A grid seeded with a single strategy everywhere therefore runs 4
loop iterations (census constant from generation 1, the stable counter
reaching 3 at loop index 3) and stops there — before any generation
ceiling of 5 or more, but not at generation 0 or 1. -/
theorem uniform_seed_early_stop (mers : Nat → Nat → Nat) (t : ℚ)
    (c : SName) (w h rounds gens s : Nat) (rs : Nat → Nat) (k : Nat)
    (hw : 0 < w) (hh : 0 < h) (hg : 4 ≤ gens) :
    (runSimulationE mers t [c] w h rounds gens (some s) rs k).2.2 = 4 :=
  runSimulationE_uniform_iters mers t c w h rounds gens s rs k hw hh hg

/-- Witness for the amended C3 on a 2×2 TitForTat-seeded grid with a
generation ceiling of 30: the loop stops after 4 iterations. -/
theorem uniform_seed_early_stop_witness :
    (runSimulationE (fun _ _ => 0) 5 [SName.tft] 2 2 8 30 (some 7)
      (fun _ => 0) 0).2.2 = 4 :=
  uniform_seed_early_stop (fun _ _ => 0) 5 SName.tft 2 2 8 30 7
    (fun _ => 0) 0 (by decide) (by decide) (by decide)

/-! ## Fast-path equivalence (C4) -/

/-- The one-shot move of each deterministic strategy: its `choose` on
empty histories.  (The Random strategy has no deterministic one-shot
move; it draws from the global generator.) -/
def oneShot (n : SName) : Bool :=
  match n with
  | .alwaysD | .stft | .hardM => false
  | _ => true

/-- On empty histories and reset state, every non-Random strategy's
`choose` is deterministic: it returns its one-shot move, leaves the
state unchanged and consumes no randomness (GenerousTitForTat only
draws after an opponent defection, which cannot have happened yet). -/
theorem choose_empty (n : SName) (hn : n ≠ SName.rand) (rs : Nat → Nat)
    (k : Nat) :
    choose n SState.init [] [] rs k = (oneShot n, SState.init, k) := by
  cases n <;> first | rfl | exact absurd rfl hn

/-- A one-round `play_match` between non-Random strategies scores one
payoff lookup per side on the one-shot moves and consumes no
randomness. -/
theorem playMatch_one (a b : SName) (ha : a ≠ SName.rand)
    (hb : b ≠ SName.rand) (pay : Bool → Bool → ℚ) (rs : Nat → Nat)
    (k : Nat) :
    playMatch a b 1 pay rs k
      = (pay (oneShot a) (oneShot b), pay (oneShot b) (oneShot a), k) := by
  show matchLoop a b pay rs 1 SState.init SState.init [] [] 0 0 k = _
  simp only [matchLoop, choose_empty a ha, choose_empty b hb, zero_add]

theorem neighbors_mem_lt (w h x y : Nat) (hw : 0 < w) (hh : 0 < h) :
    ∀ c ∈ neighbors w h x y, c.1 < w ∧ c.2 < h := by
  rw [neighbors_explicit]
  intro c hc
  simp only [List.mem_cons, List.not_mem_nil, or_false] at hc
  rcases hc with rfl | rfl | rfl | rfl | rfl | rfl | rfl | rfl <;>
    dsimp only <;>
    exact ⟨wrap_lt _ _ hw, wrap_lt _ _ hh⟩

theorem foldl_congr_mem (l : List α) (f g : β → α → β) (b : β)
    (h : ∀ a ∈ l, ∀ x, f x a = g x a) : l.foldl f b = l.foldl g b := by
  induction l generalizing b with
  | nil => rfl
  | cons a t ih =>
      simp only [List.foldl_cons]
      rw [h a (List.mem_cons_self a t)]
      exact ih _ (fun a2 ha2 x => h a2 (List.mem_cons_of_mem a ha2) x)

/-- One cell's generic-path score with one round per match, on a grid
without Random cells: one payoff lookup per neighbor on the one-shot
moves, consuming no randomness. -/
theorem cellScore_one (g : Grid) (rs : Nat → Nat)
    (hnr : ∀ x y, g.at x y ≠ SName.rand) (x y k0 : Nat) :
    cellScore g 1 PAYOFFS rs x y k0
      = ((neighbors g.width g.height x y).foldl
          (fun s c => s + PAYOFFS (oneShot (g.at x y))
            (oneShot (g.at c.1 c.2))) 0, k0) := by
  have hgo : ∀ (l : List (Nat × Nat)) (acc : ℚ) (k1 : Nat),
      (l.foldl (fun acc c =>
        let r := playMatch (g.at x y) (g.at c.1 c.2) 1 PAYOFFS rs acc.2
        (acc.1 + r.1, r.2.2)) (acc, k1))
      = (l.foldl (fun s c => s + PAYOFFS (oneShot (g.at x y))
          (oneShot (g.at c.1 c.2))) acc, k1) := by
    intro l
    induction l with
    | nil => intro acc k1; rfl
    | cons d t ih =>
        intro acc k1
        simp only [List.foldl_cons]
        rw [playMatch_one _ _ (hnr x y) (hnr d.1 d.2)]
        exact ih _ _
  exact hgo _ 0 k0

/-- C4 amended: for every grid with positive dimensions and no Random
cells, and with the fixed `PAYOFFS` matrix that `spatial.py` uses, the
`rounds_per_match == 1` fast path of `compute_scores` produces exactly
the same score grid (and leaves the global generator untouched) as the
generic per-pair match path run with one round per match. -/
theorem fastpath_equiv (g : Grid) (rs : Nat → Nat) (k : Nat)
    (hw : 0 < g.width) (hh : 0 < g.height)
    (hnr : ∀ x y, g.at x y ≠ SName.rand) :
    computeScores g 1 rs k = computeScoresPairwise g 1 PAYOFFS rs k := by
  have hmv : movesGrid g rs k
      = (pureGrid2 g.width g.height (fun x y => oneShot (g.at x y)), k) := by
    refine Prod.ext ?_ ?_
    · exact buildGrid2_values _ _ _ _
        (fun x _ y _ k0 => by rw [choose_empty (g.at x y) (hnr x y)]) k
    · exact buildGrid2_keeps _ _ _
        (fun x _ y k0 => by rw [choose_empty (g.at x y) (hnr x y)]) k
  have h0 : computeScoresFast g rs k
      = buildGrid2 g.width g.height
          (fun x y k0 =>
            ((neighbors g.width g.height x y).foldl
              (fun s c => s + PAYOFFS (index2 (movesGrid g rs k).1 y x true)
                (index2 (movesGrid g rs k).1 c.2 c.1 true)) 0, k0))
          (movesGrid g rs k).2 := rfl
  have hfast : computeScoresFast g rs k
      = (pureGrid2 g.width g.height (fun x y =>
          (neighbors g.width g.height x y).foldl
            (fun s c => s + PAYOFFS (oneShot (g.at x y))
              (oneShot (g.at c.1 c.2))) 0), k) := by
    rw [h0, hmv]
    refine Prod.ext ?_ ?_
    · refine buildGrid2_values _ _ _ _ ?_ _
      intro x hx y hy k0
      dsimp only
      refine foldl_congr_mem _ _ _ _ ?_
      intro c hc s
      obtain ⟨hc1, hc2⟩ := neighbors_mem_lt g.width g.height x y hw hh c hc
      rw [index2_pureGrid2 _ _ _ _ _ hy hx, index2_pureGrid2 _ _ _ _ _ hc2 hc1]
    · exact buildGrid2_keeps _ _ _ (fun _ _ _ _ => rfl) _
  have hgen : computeScoresPairwise g 1 PAYOFFS rs k
      = (pureGrid2 g.width g.height (fun x y =>
          (neighbors g.width g.height x y).foldl
            (fun s c => s + PAYOFFS (oneShot (g.at x y))
              (oneShot (g.at c.1 c.2))) 0), k) := by
    refine Prod.ext ?_ ?_
    · exact buildGrid2_values _ _ _ _
        (fun x _ y _ k0 => by rw [cellScore_one g rs hnr x y k0]) k
    · exact buildGrid2_keeps _ _ _
        (fun x _ y k0 => by rw [cellScore_one g rs hnr x y k0]) k
  have hcs : computeScores g 1 rs k = computeScoresFast g rs k := rfl
  rw [hcs, hfast, hgen]

/-- Witness for the amended C4 on a 1×1 AlwaysCooperate grid. -/
theorem fastpath_equiv_witness :
    computeScores ⟨1, 1, fun _ _ => SName.alwaysC⟩ 1 (fun _ => 0) 0
      = computeScoresPairwise ⟨1, 1, fun _ _ => SName.alwaysC⟩ 1 PAYOFFS
          (fun _ => 0) 0 :=
  fastpath_equiv ⟨1, 1, fun _ _ => SName.alwaysC⟩ (fun _ => 0) 0
    (by decide) (by decide) (fun x y => by simp [Grid.at])

theorem neighbors_on_1x1 :
    neighbors 1 1 0 0
      = [(0, 0), (0, 0), (0, 0), (0, 0), (0, 0), (0, 0), (0, 0), (0, 0)] := by
  decide

/-- C4 counterexample: on a 1×1 grid holding the Random strategy, with
the global-generator stream drawing 0 first and 1 afterwards, the fast
path computes the cell's coin once (heads: cooperate) and reuses it for
all 8 wrap-around self-pairings, scoring 8·R = 24; the generic per-pair
path with one round per match flips two fresh coins per match (the cell
cooperates then defects against itself, then both defect), scoring
S + 7·P = 7.  The two paths also consume different numbers of draws, so
the fast path is a behavioral difference on grids containing Random. -/
theorem fastpath_diverges_on_random :
    index2 (computeScores ⟨1, 1, fun _ _ => SName.rand⟩ 1
      (fun i => if i = 0 then 0 else 1) 0).1 0 0 0 = 24
    ∧ index2 (computeScoresPairwise ⟨1, 1, fun _ _ => SName.rand⟩ 1 PAYOFFS
        (fun i => if i = 0 then 0 else 1) 0).1 0 0 0 = 7
    ∧ computeScores ⟨1, 1, fun _ _ => SName.rand⟩ 1
        (fun i => if i = 0 then 0 else 1) 0
      ≠ computeScoresPairwise ⟨1, 1, fun _ _ => SName.rand⟩ 1 PAYOFFS
          (fun i => if i = 0 then 0 else 1) 0 := by
  have h1 : index2 (computeScores ⟨1, 1, fun _ _ => SName.rand⟩ 1
      (fun i => if i = 0 then 0 else 1) 0).1 0 0 0 = 24 := by
    norm_num [computeScores, computeScoresFast, movesGrid, buildGrid2,
      threadMap, index2, choose, randCoin, PAYOFFS, neighbors_on_1x1,
      Grid.at, List.range_succ]
  have h2 : index2 (computeScoresPairwise ⟨1, 1, fun _ _ => SName.rand⟩ 1
      PAYOFFS (fun i => if i = 0 then 0 else 1) 0).1 0 0 0 = 7 := by
    norm_num [computeScoresPairwise, cellScore, buildGrid2, threadMap,
      index2, playMatch, matchLoop, choose, randCoin, PAYOFFS,
      neighbors_on_1x1, Grid.at, List.range_succ,
      show (((1:Nat) == 0) = false) from rfl,
      show (((0:Nat) == 0) = true) from rfl]
  refine ⟨h1, h2, fun heq => ?_⟩
  rw [heq, h2] at h1
  norm_num at h1
